import Mathlib

/-!
Verification of the tmuxai transcript-reconstruction engine and turn
orchestrator.

Text is modelled as `List Char`.  The repository manipulates strings only by
substring search, tag extraction, whitespace trimming and concatenation, all
of which are faithfully reproduced on character lists below.

Functions whose Go source lives in `src/internal/process_message.go` are
translated directly.  The exec-pane functions (`parseExecPaneCommandHistoryWithContent`,
`ExecWaitCapture`, `PrepareExecPaneWithShell`) are exercised by the
repository's tests but their defining file is not part of the source tree
here; they are modelled from the specification, as marked in their doc
comments.
-/

namespace Tmuxai

/-- Go `unicode.IsSpace` on the ASCII range (the only whitespace the
repository's tags and captures contain). -/
def isGoSpace (c : Char) : Bool :=
  c == ' ' || c == '\t' || c == '\n' || c == '\x0b' || c == '\x0c' || c == '\r'

/-- Go `strings.TrimSpace`. -/
def trimSpace (l : List Char) : List Char :=
  ((l.dropWhile isGoSpace).reverse.dropWhile isGoSpace).reverse

/-- Index of the first occurrence of `pat` as a contiguous substring of `s`,
as in Go `strings.Index` (and the anchor search of `regexp`). -/
def subIndexOf : List Char → List Char → Option Nat
  | [], pat => if pat.isEmpty then some 0 else none
  | s@(_ :: tl), pat =>
    if pat.isPrefixOf s then some 0 else (subIndexOf tl pat).map (· + 1)

/-- Go `strings.Contains`. -/
def containsSub (s pat : List Char) : Bool :=
  (subIndexOf s pat).isSome

/-- `pat` occurs contiguously inside `s`. -/
def Occurs (s pat : List Char) : Prop :=
  ∃ a b, s = a ++ pat ++ b

theorem occurs_of_subIndexOf_isSome {s pat : List Char}
    (h : (subIndexOf s pat).isSome) : Occurs s pat := by
  induction s with
  | nil =>
    simp only [subIndexOf] at h
    by_cases hp : pat.isEmpty
    · exact ⟨[], [], by simp [List.isEmpty_iff.mp hp]⟩
    · simp [hp] at h
  | cons c tl ih =>
    simp only [subIndexOf] at h
    split at h
    next hp =>
      obtain ⟨t, ht⟩ := List.isPrefixOf_iff_prefix.mp hp
      exact ⟨[], t, by simp [← ht]⟩
    next hp =>
      cases hsub : subIndexOf tl pat with
      | none => rw [hsub] at h; simp at h
      | some k =>
        obtain ⟨a, b, hab⟩ := ih (by rw [hsub]; rfl)
        exact ⟨c :: a, b, by simp [hab]⟩

theorem subIndexOf_isSome_of_occurs {s pat : List Char}
    (h : Occurs s pat) : (subIndexOf s pat).isSome := by
  obtain ⟨a, b, rfl⟩ := h
  induction a with
  | nil =>
    cases pat with
    | nil => cases b <;> simp [subIndexOf]
    | cons p pt =>
      show (subIndexOf (p :: (pt ++ b)) (p :: pt)).isSome = true
      have hp : (p :: pt).isPrefixOf (p :: (pt ++ b)) = true := by
        exact List.isPrefixOf_iff_prefix.mpr ⟨b, by simp⟩
      simp only [subIndexOf, hp, if_true]
      rfl
  | cons c ct ih =>
    show (subIndexOf (c :: (ct ++ pat ++ b)) pat).isSome = true
    simp only [subIndexOf]
    split
    · rfl
    · cases hsub : subIndexOf (ct ++ pat ++ b) pat with
      | none => rw [hsub] at ih; simp at ih
      | some k => rfl

/-- Content of the first (leftmost, non-greedy) match of
`(?s)<open>(.*?)</close>`: the text between the first opening tag and the
first closing tag after it.  When the earliest opening tag has no closing
tag after it, no later opening tag can have one either, so the whole regex
has no match. -/
def firstTagMatch (openTag closeTag s : List Char) : Option (List Char) :=
  match subIndexOf s openTag with
  | none => none
  | some i =>
    let rest := s.drop (i + openTag.length)
    match subIndexOf rest closeTag with
    | none => none
    | some j => some (rest.take j)

/-- All matches of `(?s)<open>(.*?)</close>` in document order, non
overlapping, each search resuming after the previous closing tag
(Go `FindAllStringSubmatch`).  `fuel` bounds the recursion; every step
consumes at least one character, so `s.length + 1` is always enough. -/
def allTagMatchesAux (openTag closeTag : List Char) : Nat → List Char → List (List Char)
  | 0, _ => []
  | fuel + 1, s =>
    match subIndexOf s openTag with
    | none => []
    | some i =>
      let rest := s.drop (i + openTag.length)
      match subIndexOf rest closeTag with
      | none => []
      | some j =>
        rest.take j :: allTagMatchesAux openTag closeTag fuel (rest.drop (j + closeTag.length))

def allTagMatches (openTag closeTag s : List Char) : List (List Char) :=
  allTagMatchesAux openTag closeTag (s.length + 1) s

/-! ## The response interpreter (`parseAIResponse`, src/internal/process_message.go) -/

/-- `AIResponse` as used by `process_message.go`. -/
structure AIResponse where
  Message : List Char := []
  ExecCommand : List (List Char) := []
  SendKeys : List (List Char) := []
  PasteMultilineContent : List Char := []
  BrowserAction : List Char := []
  RequestAccomplished : Bool := false
  ExecPaneSeemsBusy : Bool := false
  WaitingForUserResponse : Bool := false
  NoComment : Bool := false
deriving Repr, DecidableEq

def browserActionOpen : List Char := "<BrowserAction>".toList
def browserActionClose : List Char := "</BrowserAction>".toList
def sendKeysOpen : List Char := "<TmuxSendKeys>".toList
def sendKeysClose : List Char := "</TmuxSendKeys>".toList
def execCommandOpen : List Char := "<ExecCommand>".toList
def execCommandClose : List Char := "</ExecCommand>".toList
def pasteOpen : List Char := "<PasteMultilineContent>".toList
def pasteClose : List Char := "</PasteMultilineContent>".toList
def flagRequestAccomplished : List Char := "<RequestAccomplished>1</RequestAccomplished>".toList
def flagExecPaneSeemsBusy : List Char := "<ExecPaneSeemsBusy>1</ExecPaneSeemsBusy>".toList
def flagWaitingForUserResponse : List Char := "<WaitingForUserResponse>1</WaitingForUserResponse>".toList
def flagNoComment : List Char := "<NoComment>1</NoComment>".toList

/-- `parseAIResponse` (src/internal/process_message.go:290-338).  The JSON
well-formedness check that Go performs with `encoding/json.Unmarshal` into a
`map[string]interface` is an external standard-library call; it is passed in
as the predicate `jsonValidObject`. -/
def parseAIResponse (jsonValidObject : List Char → Bool) (response : List Char) : AIResponse :=
  let withBrowser : AIResponse :=
    match firstTagMatch browserActionOpen browserActionClose response with
    | some content =>
      let c := trimSpace content
      if jsonValidObject c then { Message := response, BrowserAction := c }
      else { Message := response }
    | none => { Message := response }
  let withKeys :=
    { withBrowser with SendKeys := (allTagMatches sendKeysOpen sendKeysClose response).map trimSpace }
  let withExec :=
    { withKeys with ExecCommand := (allTagMatches execCommandOpen execCommandClose response).map trimSpace }
  let withPaste :=
    match firstTagMatch pasteOpen pasteClose response with
    | some content => { withExec with PasteMultilineContent := trimSpace content }
    | none => withExec
  { withPaste with
    RequestAccomplished := containsSub response flagRequestAccomplished
    ExecPaneSeemsBusy := containsSub response flagExecPaneSeemsBusy
    WaitingForUserResponse := containsSub response flagWaitingForUserResponse
    NoComment := containsSub response flagNoComment }

/-- The Go function has signature `(AIResponse, error)` and ends in
`return r, nil`: the error result is always `nil`. -/
def parseAIResponseE (jsonValidObject : List Char → Bool) (response : List Char) :
    Except (List Char) AIResponse :=
  Except.ok (parseAIResponse jsonValidObject response)

/-! ## The guideline validator (`aiFollowedGuidelines`, src/internal/process_message.go) -/

def guidelineMsgFlags : List Char :=
  "You didn\x27t follow the guidelines. Only one boolean flag should be set to true in your response. Pay attention!".toList
def guidelineMsgTags : List Char :=
  "You didn\x27t follow the guidelines. You can only use one type of XML tag in your response. Pay attention!".toList
def guidelineMsgAtLeastOne : List Char :=
  "You didn\x27t follow the guidelines. You must use at least one XML tag in your response. Pay attention!".toList

/-- The count of `true` boolean flags (src/internal/process_message.go:367-371). -/
def boolCount (r : AIResponse) : Nat :=
  (if r.RequestAccomplished then 1 else 0) + (if r.ExecPaneSeemsBusy then 1 else 0) +
  (if r.WaitingForUserResponse then 1 else 0) + (if r.NoComment then 1 else 0)

/-- The count of populated tag kinds: the Go code collects the four lengths
(`len` of two slices and of two strings) and counts those `> 0`
(src/internal/process_message.go:377-389). -/
def tagKindCount (r : AIResponse) : Nat :=
  ([r.ExecCommand.length, r.SendKeys.length,
    r.PasteMultilineContent.length, r.BrowserAction.length].filter (fun n => n > 0)).length

/-- `aiFollowedGuidelines` (src/internal/process_message.go:365-401). -/
def aiFollowedGuidelines (watchMode : Bool) (r : AIResponse) : List Char × Bool :=
  if boolCount r > 1 then (guidelineMsgFlags, false)
  else if tagKindCount r > 1 then (guidelineMsgTags, false)
  else if !watchMode && tagKindCount r + boolCount r == 0 then (guidelineMsgAtLeastOne, false)
  else ([], true)

/-- The four boolean flags of a response, listed. -/
def flagList (r : AIResponse) : List Bool :=
  [r.RequestAccomplished, r.ExecPaneSeemsBusy, r.WaitingForUserResponse, r.NoComment]

/-- Which of the four action kinds are populated, judged by a non-zero count. -/
def populatedList (r : AIResponse) : List Bool :=
  [decide (0 < r.ExecCommand.length), decide (0 < r.SendKeys.length),
   decide (0 < r.PasteMultilineContent.length), decide (0 < r.BrowserAction.length)]

theorem boolCount_eq_flagCount (r : AIResponse) :
    boolCount r = (flagList r).count true := by
  rcases r with ⟨m, ec, sk, p, ba, a, b, c, d⟩
  cases a <;> cases b <;> cases c <;> cases d <;> rfl

theorem tagKindCount_eq_popCount (r : AIResponse) :
    tagKindCount r = (populatedList r).count true := by
  rcases r with ⟨m, ec, sk, p, ba, a, b, c, d⟩
  by_cases h1 : 0 < ec.length <;> by_cases h2 : 0 < sk.length <;>
    by_cases h3 : 0 < p.length <;> by_cases h4 : 0 < ba.length <;>
    simp [tagKindCount, populatedList, List.filter, List.count_cons, h1, h2, h3, h4]

/-- C3: the guideline validator returns `ok = false` with a corrective message
exactly when (a) at least two of the four boolean flags are set, or (b) at
least two action kinds among ExecCommand, SendKeys, PasteMultilineContent and
BrowserAction are populated (non-zero count), or (c) watch mode is off and no
flag and no action is present; the rules fire in that order (determining the
message), and otherwise it returns `ok = true`. -/
theorem aiFollowedGuidelines_spec (watch : Bool) (r : AIResponse) :
    ((aiFollowedGuidelines watch r).2 = false ↔
       (2 ≤ (flagList r).count true ∨ 2 ≤ (populatedList r).count true ∨
        (watch = false ∧ (flagList r).count true = 0 ∧ (populatedList r).count true = 0)))
    ∧ (2 ≤ (flagList r).count true →
        aiFollowedGuidelines watch r = (guidelineMsgFlags, false))
    ∧ ((flagList r).count true < 2 → 2 ≤ (populatedList r).count true →
        aiFollowedGuidelines watch r = (guidelineMsgTags, false))
    ∧ ((flagList r).count true = 0 → (populatedList r).count true = 0 → watch = false →
        aiFollowedGuidelines watch r = (guidelineMsgAtLeastOne, false))
    ∧ (¬ 2 ≤ (flagList r).count true → ¬ 2 ≤ (populatedList r).count true →
        ¬ (watch = false ∧ (flagList r).count true = 0 ∧ (populatedList r).count true = 0) →
        aiFollowedGuidelines watch r = ([], true)) := by
  have hb := boolCount_eq_flagCount r
  have ht := tagKindCount_eq_popCount r
  rw [← hb, ← ht]
  unfold aiFollowedGuidelines
  cases watch <;>
    refine ⟨?_, ?_, ?_, ?_, ?_⟩ <;>
    split_ifs with h1 h2 h3 <;>
    simp_all <;>
    omega

/-- Witness for C3 at a concrete invalid response: two flags set at once are
rejected with the single-flag corrective message. -/
theorem aiFollowedGuidelines_spec_witness :
    aiFollowedGuidelines false
      { Message := [], RequestAccomplished := true, ExecPaneSeemsBusy := true } =
      (guidelineMsgFlags, false) :=
  (aiFollowedGuidelines_spec false
      { Message := [], RequestAccomplished := true, ExecPaneSeemsBusy := true }).2.1
    (by decide)

theorem allTagMatches_eq_nil {openT closeT s : List Char}
    (h : subIndexOf s openT = none) : allTagMatches openT closeT s = [] := by
  simp [allTagMatches, allTagMatchesAux, h]

/-- C6: for every raw model reply, the response interpreter returns
successfully (the error slot of the Go signature is always `nil`); when no
recognized tag or flag is present the result degrades to the all-empty
`AIResponse` (only `Message` carries the raw reply); and a `BrowserAction`
payload the JSON validator rejects is discarded — the field stays empty —
rather than failing the parse. -/
theorem parseAIResponse_never_fails (jv : List Char → Bool) (response : List Char) :
    (∃ r, parseAIResponseE jv response = Except.ok r)
    ∧ (∀ content, firstTagMatch browserActionOpen browserActionClose response = some content →
        jv (trimSpace content) = false →
        (parseAIResponse jv response).BrowserAction = [])
    ∧ (firstTagMatch browserActionOpen browserActionClose response = none →
        (parseAIResponse jv response).BrowserAction = [])
    ∧ (firstTagMatch browserActionOpen browserActionClose response = none →
       subIndexOf response sendKeysOpen = none →
       subIndexOf response execCommandOpen = none →
       firstTagMatch pasteOpen pasteClose response = none →
       containsSub response flagRequestAccomplished = false →
       containsSub response flagExecPaneSeemsBusy = false →
       containsSub response flagWaitingForUserResponse = false →
       containsSub response flagNoComment = false →
       parseAIResponse jv response = { Message := response }) := by
  refine ⟨⟨parseAIResponse jv response, rfl⟩, ?_, ?_, ?_⟩
  · intro content hmatch hvalid
    simp only [parseAIResponse, hmatch, hvalid, Bool.false_eq_true, if_false]
    cases hp : firstTagMatch pasteOpen pasteClose response <;> simp [hp]
  · intro hmatch
    simp only [parseAIResponse, hmatch]
    cases hp : firstTagMatch pasteOpen pasteClose response <;> simp [hp]
  · intro hba hsk hec hp f1 f2 f3 f4
    simp only [parseAIResponse, hba, hsk, hec, hp, f1, f2, f3, f4,
      allTagMatches_eq_nil hsk, allTagMatches_eq_nil hec, List.map_nil]

/-- Witness for C6: a `BrowserAction` tag whose payload the JSON check
rejects is dropped while the parse still succeeds. -/
theorem parseAIResponse_never_fails_witness :
    (parseAIResponse (fun _ => false) "<BrowserAction>not json</BrowserAction>".toList).BrowserAction
      = [] :=
  (parseAIResponse_never_fails (fun _ => false)
      "<BrowserAction>not json</BrowserAction>".toList).2.1
    "not json".toList (by decide) rfl

theorem subIndexOf_eq_none {s pat : List Char} (h : ¬ Occurs s pat) :
    subIndexOf s pat = none := by
  cases hs : subIndexOf s pat with
  | none => rfl
  | some i => exact absurd (occurs_of_subIndexOf_isSome (by rw [hs]; rfl)) h

theorem occurs_filter {s pat : List Char} (p : Char → Bool) (h : Occurs s pat)
    (hpat : pat.filter p = pat) : Occurs (s.filter p) pat := by
  obtain ⟨a, b, rfl⟩ := h
  exact ⟨a.filter p, b.filter p, by simp [List.filter_append, hpat]⟩

/-- A pattern containing no whitespace does not occur in `s` if it does not
occur in `s` with all whitespace removed. -/
theorem subIndexOf_none_of_nospace {s pat : List Char}
    (hpat : pat.filter (fun c => !isGoSpace c) = pat)
    (h : subIndexOf (s.filter (fun c => !isGoSpace c)) pat = none) :
    subIndexOf s pat = none := by
  apply subIndexOf_eq_none
  intro hocc
  have h2 := subIndexOf_isSome_of_occurs (occurs_filter _ hocc hpat)
  rw [h] at h2
  simp at h2

theorem filter_nonspace_of_all_space {ws : List Char} (h : ws.all isGoSpace = true) :
    ws.filter (fun c => !isGoSpace c) = [] := by
  induction ws with
  | nil => rfl
  | cons w wt ih =>
    simp only [List.all_cons, Bool.and_eq_true] at h
    simp [List.filter_cons, h.1, ih h.2]

theorem dropWhile_eq_nil_of_all {p : Char → Bool} {l : List Char}
    (h : l.all p = true) : l.dropWhile p = [] := by
  induction l with
  | nil => rfl
  | cons c tl ih =>
    simp only [List.all_cons, Bool.and_eq_true] at h
    simp [List.dropWhile_cons, h.1, ih h.2]

theorem trimSpace_of_all_space {ws : List Char} (h : ws.all isGoSpace = true) :
    trimSpace ws = [] := by
  simp [trimSpace, dropWhile_eq_nil_of_all h]

theorem isPrefixOf_append_self (l t : List Char) : l.isPrefixOf (l ++ t) = true :=
  List.isPrefixOf_iff_prefix.mpr ⟨t, rfl⟩

/-- The first occurrence of a pattern that starts with a non-space character,
in a string made of whitespace followed by the pattern, is right after the
whitespace. -/
theorem subIndexOf_append_space {ws rest : List Char} {c0 : Char} {pt : List Char}
    (h0 : isGoSpace c0 = false) (hws : ws.all isGoSpace = true)
    (hpre : (c0 :: pt).isPrefixOf rest = true) :
    subIndexOf (ws ++ rest) (c0 :: pt) = some ws.length := by
  induction ws with
  | nil =>
    cases rest with
    | nil => simp [List.isPrefixOf] at hpre
    | cons r rt => simp [subIndexOf, hpre]
  | cons w wt ih =>
    simp only [List.all_cons, Bool.and_eq_true] at hws
    have hne : ((c0 :: pt).isPrefixOf (w :: (wt ++ rest))) = false := by
      have : (c0 == w) = false := by
        cases hcw : c0 == w
        · rfl
        · exact absurd (beq_iff_eq.mp hcw ▸ hws.1) (by simp [h0])
      simp [List.isPrefixOf, this]
    simp only [List.cons_append, subIndexOf, List.append_eq, hne, Bool.false_eq_true,
      if_false, ih hws.2, Option.map_some', List.length_cons]

theorem subIndexOf_self_append {l t : List Char} (h : l ≠ []) :
    subIndexOf (l ++ t) l = some 0 := by
  cases l with
  | nil => exact absurd rfl h
  | cons c ct =>
    have := isPrefixOf_append_self (c :: ct) t
    simp only [List.cons_append] at this ⊢
    simp [subIndexOf, this]

/-- Field computation of `parseAIResponse` for a reply whose only recognized
structure is one `PasteMultilineContent` tag. -/
theorem parseAIResponse_paste_only {jv : List Char → Bool} {response content : List Char}
    (hba : firstTagMatch browserActionOpen browserActionClose response = none)
    (hsk : subIndexOf response sendKeysOpen = none)
    (hec : subIndexOf response execCommandOpen = none)
    (hp : firstTagMatch pasteOpen pasteClose response = some content)
    (f1 : containsSub response flagRequestAccomplished = false)
    (f2 : containsSub response flagExecPaneSeemsBusy = false)
    (f3 : containsSub response flagWaitingForUserResponse = false)
    (f4 : containsSub response flagNoComment = false) :
    parseAIResponse jv response =
      { Message := response, PasteMultilineContent := trimSpace content } := by
  simp only [parseAIResponse, hba, hsk, hec, hp, f1, f2, f3, f4,
    allTagMatches_eq_nil hsk, allTagMatches_eq_nil hec, List.map_nil]

/-- Extraction of a paste tag around arbitrary content with no closing tag
inside: the content between the tags is returned verbatim. -/
theorem firstTagMatch_paste_wrap {ws : List Char}
    (hws : ws.all isGoSpace = true) :
    firstTagMatch pasteOpen pasteClose (pasteOpen ++ ws ++ pasteClose) = some ws := by
  have h1 : subIndexOf (pasteOpen ++ ws ++ pasteClose) pasteOpen = some 0 := by
    rw [List.append_assoc]
    exact subIndexOf_self_append (by decide)
  have hcons : pasteClose = '<' :: "/PasteMultilineContent>".toList := rfl
  have h2 : subIndexOf (ws ++ pasteClose) pasteClose = some ws.length := by
    rw [hcons]
    exact subIndexOf_append_space (by decide) hws (by decide)
  have hdrop : (pasteOpen ++ ws ++ pasteClose).drop (0 + pasteOpen.length) = ws ++ pasteClose := by
    rw [Nat.zero_add, List.append_assoc, List.drop_left]
  simp only [firstTagMatch, h1, hdrop, h2, List.take_left]

/-- C10: a model reply whose only recognized tag is a `PasteMultilineContent`
with whitespace-only content and no boolean flags parses to a response whose
extracted paste content is trimmed to the empty string, so the guideline
validator counts zero actions and, outside watch mode, rejects the reply. -/
theorem whitespace_paste_rejected (jv : List Char → Bool) (ws : List Char)
    (hws : ws.all isGoSpace = true) :
    parseAIResponse jv (pasteOpen ++ ws ++ pasteClose) =
      { Message := pasteOpen ++ ws ++ pasteClose }
    ∧ aiFollowedGuidelines false (parseAIResponse jv (pasteOpen ++ ws ++ pasteClose)) =
      (guidelineMsgAtLeastOne, false) := by
  have hfo : pasteOpen.filter (fun c => !isGoSpace c) = pasteOpen := by decide
  have hfc : pasteClose.filter (fun c => !isGoSpace c) = pasteClose := by decide
  have hfilt : (pasteOpen ++ ws ++ pasteClose).filter (fun c => !isGoSpace c) =
      pasteOpen ++ pasteClose := by
    rw [List.filter_append, List.filter_append, filter_nonspace_of_all_space hws,
      hfo, hfc, List.append_nil]
  have hnone : ∀ pat : List Char, pat.filter (fun c => !isGoSpace c) = pat →
      subIndexOf (pasteOpen ++ pasteClose) pat = none →
      subIndexOf (pasteOpen ++ ws ++ pasteClose) pat = none := by
    intro pat h1 h2
    exact subIndexOf_none_of_nospace h1 (by rw [hfilt]; exact h2)
  have hba : firstTagMatch browserActionOpen browserActionClose
      (pasteOpen ++ ws ++ pasteClose) = none := by
    unfold firstTagMatch
    rw [hnone browserActionOpen (by decide) (by decide)]
  have hsk : subIndexOf (pasteOpen ++ ws ++ pasteClose) sendKeysOpen = none :=
    hnone sendKeysOpen (by decide) (by decide)
  have hec : subIndexOf (pasteOpen ++ ws ++ pasteClose) execCommandOpen = none :=
    hnone execCommandOpen (by decide) (by decide)
  have f1 : containsSub (pasteOpen ++ ws ++ pasteClose) flagRequestAccomplished = false := by
    unfold containsSub
    rw [hnone flagRequestAccomplished (by decide) (by decide)]
    rfl
  have f2 : containsSub (pasteOpen ++ ws ++ pasteClose) flagExecPaneSeemsBusy = false := by
    unfold containsSub
    rw [hnone flagExecPaneSeemsBusy (by decide) (by decide)]
    rfl
  have f3 : containsSub (pasteOpen ++ ws ++ pasteClose) flagWaitingForUserResponse = false := by
    unfold containsSub
    rw [hnone flagWaitingForUserResponse (by decide) (by decide)]
    rfl
  have f4 : containsSub (pasteOpen ++ ws ++ pasteClose) flagNoComment = false := by
    unfold containsSub
    rw [hnone flagNoComment (by decide) (by decide)]
    rfl
  have hmain : parseAIResponse jv (pasteOpen ++ ws ++ pasteClose) =
      { Message := pasteOpen ++ ws ++ pasteClose } := by
    rw [parseAIResponse_paste_only hba hsk hec (firstTagMatch_paste_wrap hws) f1 f2 f3 f4,
      trimSpace_of_all_space hws]
  exact ⟨hmain, by rw [hmain]; rfl⟩

/-- Witness for C10: a paste tag holding only spaces and a newline is
rejected as a guideline violation outside watch mode. -/
theorem whitespace_paste_rejected_witness :
    aiFollowedGuidelines false
      (parseAIResponse (fun _ => true) (pasteOpen ++ "  \n".toList ++ pasteClose)) =
      (guidelineMsgAtLeastOne, false) :=
  (whitespace_paste_rejected (fun _ => true) "  \n".toList (by decide)).2

/-! ## The transcript parser

Modelled from the spec: the Go file defining the prompt regular expression
and `parseExecPaneCommandHistory` is not under `src/`; only its tests are
(`src/internal/exec_pane_test.go`).  The prompt shape
`<user>@<host>:<path>[<HH:MM>][<status>]» ` and the segmentation algorithm
are taken from spec §3 (Prompt Grammar) and §4.1 (Transcript Parser), pinned
down by the test fixtures. -/

/-- One reconstructed command execution (`CommandExecHistory` in the tests). -/
structure CommandExecHistory where
  Command : List Char := []
  Output : List Char := []
  Code : Int := 0
deriving Repr, DecidableEq

/-- Numeric value of a decimal digit string. -/
def digitsVal (ds : List Char) : Nat :=
  ds.foldl (fun acc c => acc * 10 + (c.toNat - 48)) 0

/-- Modelled from the spec: recognition of one prompt occurrence at the head
of `s` (spec §3): `<user>@<host>:<path>[<HH:MM>][<status>]» ` with the unique
delimiter glyph `»`.  None of the variable parts may span a line break.
Returns the number of characters consumed and the extracted status field. -/
def promptClassUser (c : Char) : Bool := !(c == '@') && !(c == '\n')
def promptClassHost (c : Char) : Bool := !(c == ':') && !(c == '\n')
def promptClassPath (c : Char) : Bool := !(c == '[') && !(c == '\n')

def matchPrompt (s : List Char) : Option (Nat × Nat) :=
  if (s.takeWhile promptClassUser).isEmpty then none else
  match s.dropWhile promptClassUser with
  | '@' :: s2 =>
    if (s2.takeWhile promptClassHost).isEmpty then none else
    match s2.dropWhile promptClassHost with
    | ':' :: s4 =>
      if (s4.takeWhile promptClassPath).isEmpty then none else
      match s4.dropWhile promptClassPath with
      | '[' :: h1 :: h2 :: ':' :: m1 :: m2 :: ']' :: s6 =>
        if h1.isDigit && h2.isDigit && m1.isDigit && m2.isDigit then
          match s6 with
          | '[' :: s7 =>
            if (s7.takeWhile Char.isDigit).isEmpty then none else
            match s7.dropWhile Char.isDigit with
            | ']' :: '»' :: ' ' :: _ =>
              some ((s.takeWhile promptClassUser).length + 1 +
                    (s2.takeWhile promptClassHost).length + 1 +
                    (s4.takeWhile promptClassPath).length + 7 + 1 +
                    (s7.takeWhile Char.isDigit).length + 3,
                digitsVal (s7.takeWhile Char.isDigit))
            | _ => none
          | _ => none
        else none
      | _ => none
    | _ => none
  | _ => none

/-- Whatever a prompt match consumed is a single-line prefix that contains
the delimiter glyph. -/
theorem matchPrompt_decomp {s : List Char} {len st : Nat}
    (h : matchPrompt s = some (len, st)) :
    ∃ P rest, s = P ++ rest ∧ P.length = len ∧ 1 ≤ len ∧
      '\n' ∉ P ∧ '»' ∈ P := by
  unfold matchPrompt at h
  split at h
  · exact absurd h (by simp)
  next huser =>
    split at h
    case h_2 => exact absurd h (by simp)
    next s2 heq1 =>
      split at h
      · exact absurd h (by simp)
      next hhost =>
        split at h
        case h_2 => exact absurd h (by simp)
        next s4 heq2 =>
          split at h
          · exact absurd h (by simp)
          next hpath =>
            split at h
            case h_2 => exact absurd h (by simp)
            next h1 h2 m1 m2 s6 heq3 =>
              split at h
              case isFalse => exact absurd h (by simp)
              next hdig =>
                split at h
                case h_2 => exact absurd h (by simp)
                next s7 heq4 =>
                  split at h
                  · exact absurd h (by simp)
                  next hds =>
                    split at h
                    case h_2 => exact absurd h (by simp)
                    next s9 heq5 =>
                      simp only [Option.some.injEq, Prod.mk.injEq] at h
                      obtain ⟨hlen, hst⟩ := h
                      refine ⟨List.takeWhile promptClassUser s ++ '@' ::
                          (List.takeWhile promptClassHost s2 ++ ':' ::
                            (List.takeWhile promptClassPath s4 ++ '[' :: h1 :: h2 :: ':' ::
                              m1 :: m2 :: ']' :: '[' ::
                                (List.takeWhile Char.isDigit heq4 ++ [']', '»', ' ']))),
                        s9, ?_, ?_, ?_, ?_, ?_⟩
                      · have e1 : List.takeWhile promptClassUser s ++ ('@' :: s2) = s := by
                          rw [← heq1, List.takeWhile_append_dropWhile]
                        have e2 : List.takeWhile promptClassHost s2 ++ (':' :: s4) = s2 := by
                          rw [← heq2, List.takeWhile_append_dropWhile]
                        have e3 : List.takeWhile promptClassPath s4 ++
                            ('[' :: h1 :: h2 :: ':' :: m1 :: m2 :: ']' :: '[' :: heq4) = s4 := by
                          rw [← heq3, List.takeWhile_append_dropWhile]
                        have e4 : List.takeWhile Char.isDigit heq4 ++
                            (']' :: '»' :: ' ' :: s9) = heq4 := by
                          rw [← heq5, List.takeWhile_append_dropWhile]
                        simp only [List.append_assoc, List.cons_append, List.nil_append]
                        rw [e4, e3, e2, e1]
                      · simp only [List.length_append, List.length_cons, List.length_nil]
                        omega
                      · omega
                      · intro hmem
                        simp only [Bool.and_eq_true] at hdig
                        simp only [List.mem_append, List.mem_cons, List.mem_singleton,
                          List.not_mem_nil, or_false] at hmem
                        rcases hmem with h' | h' | h' | h' | h' | h' | h' | h' | h' | h' |
                          h' | h' | h' | h' | h' | h' | h'
                        all_goals first
                          | exact absurd h' (by decide)
                          | exact absurd (List.mem_takeWhile_imp h') (by decide)
                          | (subst h'; simp [Char.isDigit] at hdig)
                      · simp

/-- Modelled from the spec (§4.1): scan the capture left to right for all
non-overlapping prompt matches, recording position, consumed length and
extracted status.  The scan advances one character at a time; `skip > 0`
means the current position is still inside the previous match (matches are
non-overlapping), so no new match may start there. -/
def findPromptsAux : List Char → Nat → Nat → List (Nat × Nat × Nat)
  | [], _, _ => []
  | c :: tl, pos, skip =>
    if 0 < skip then findPromptsAux tl (pos + 1) (skip - 1)
    else
      match matchPrompt (c :: tl) with
      | some (len, st) => (pos, len, st) :: findPromptsAux tl (pos + 1) (len - 1)
      | none => findPromptsAux tl (pos + 1) 0

/-- All prompt matches of a capture. -/
def findPrompts (s : List Char) : List (Nat × Nat × Nat) :=
  findPromptsAux s 0 0

/-- First line of a segment (the command text after the prompt delimiter). -/
def firstLine (l : List Char) : List Char := l.takeWhile fun c => !(c == '\n')

/-- Remaining lines of a segment (the output). -/
def restLines (l : List Char) : List Char := l.dropWhile fun c => !(c == '\n')

/-- Where the free text after a match ends: at the start of the following
match, or at the end of the capture. -/
def nextEnd (s : List Char) : List (Nat × Nat × Nat) → Nat
  | [] => s.length
  | (q, _, _) :: _ => q

/-- The status code resolved by the *following* prompt match, `-1` when the
capture ends without one (spec §3's sentinel). -/
def nextCode : List (Nat × Nat × Nat) → Int
  | [] => -1
  | (_, _, st2) :: _ => (st2 : Int)

/-- Modelled from the spec (§4.1): between the end of prompt match `i` and the
start of match `i+1` (or the end of the capture), the first line is the
command and the remaining lines are the output, both whitespace-trimmed; an
entry is emitted only for a non-empty command, and its status code is the
status field of match `i+1`, or `-1` when no following match exists. -/
def buildEntries (s : List Char) : List (Nat × Nat × Nat) → List CommandExecHistory
  | [] => []
  | (p, len, _) :: rest =>
    if (trimSpace (firstLine ((s.drop (p + len)).take (nextEnd s rest - (p + len))))).isEmpty
    then buildEntries s rest
    else { Command := trimSpace (firstLine ((s.drop (p + len)).take (nextEnd s rest - (p + len)))),
           Output := trimSpace (restLines ((s.drop (p + len)).take (nextEnd s rest - (p + len)))),
           Code := nextCode rest } :: buildEntries s rest

/-- Modelled from the spec: the transcript parser
(`parseExecPaneCommandHistoryWithContent` in the tests). -/
def parseExecPaneCommandHistoryWithContent (content : List Char) : List CommandExecHistory :=
  buildEntries content (findPrompts content)

/-- C5: a capture containing zero prompt-pattern matches yields the empty
entry sequence; the parser is a total function, so no error is raised. -/
theorem parse_no_prompts_yields_empty (content : List Char)
    (h : findPrompts content = []) :
    parseExecPaneCommandHistoryWithContent content = [] := by
  unfold parseExecPaneCommandHistoryWithContent
  rw [h]
  rfl

/-- Witness for C5 on the unsupported-prompt fixture of
`TestParseExecPaneCommandHistory_EdgeCases`. -/
theorem parse_no_prompts_yields_empty_witness :
    parseExecPaneCommandHistoryWithContent
      ("some random output\nwithout any valid prompts\njust plain text").toList = [] :=
  parse_no_prompts_yields_empty _ (by decide)

/-! ### Well-formed captures

A well-formed capture is a sequence of canonical prompts, each followed by a
command/output segment that does not contain the unique delimiter glyph
(spec §3's invariant) and — except possibly the final segment — ends at a
line break, since a prompt is printed at the start of a line. -/

/-- The variable fields of one canonical prompt occurrence. -/
structure PromptSpec where
  user : List Char
  host : List Char
  path : List Char
  hh1 : Char
  hh2 : Char
  mm1 : Char
  mm2 : Char
  statusDigits : List Char
deriving Repr, DecidableEq

/-- Literal text of a canonical prompt: `<user>@<host>:<path>[<HH:MM>][<status>]» `. -/
def renderPrompt (p : PromptSpec) : List Char :=
  p.user ++ '@' :: (p.host ++ ':' :: (p.path ++ '[' :: p.hh1 :: p.hh2 :: ':' ::
    p.mm1 :: p.mm2 :: ']' :: '[' :: (p.statusDigits ++ [']', '»', ' '])))

/-- The fields stay inside their character classes. -/
def wfPromptSpec (p : PromptSpec) : Prop :=
  p.user ≠ [] ∧ p.user.all promptClassUser = true ∧
  p.host ≠ [] ∧ p.host.all promptClassHost = true ∧
  p.path ≠ [] ∧ p.path.all promptClassPath = true ∧
  p.hh1.isDigit = true ∧ p.hh2.isDigit = true ∧
  p.mm1.isDigit = true ∧ p.mm2.isDigit = true ∧
  p.statusDigits ≠ [] ∧ p.statusDigits.all Char.isDigit = true

instance (p : PromptSpec) : Decidable (wfPromptSpec p) := by
  unfold wfPromptSpec; infer_instance

theorem takeWhile_stop (p : Char → Bool) {a : List Char} {b : Char}
    (ha : a.all p = true) (hb : p b = false) (t : List Char) :
    (a ++ b :: t).takeWhile p = a ∧ (a ++ b :: t).dropWhile p = b :: t := by
  induction a with
  | nil => simp [List.takeWhile_cons, List.dropWhile_cons, hb]
  | cons x xs ih =>
    simp only [List.all_cons, Bool.and_eq_true] at ha
    have h' := ih ha.2
    simp [List.takeWhile_cons, List.dropWhile_cons, ha.1, h'.1, h'.2]

theorem isEmpty_false_of_ne_nil {l : List Char} (h : l ≠ []) : l.isEmpty = false := by
  cases l with
  | nil => exact absurd rfl h
  | cons _ _ => rfl

/-- A well-formed prompt at the head of the input is matched exactly, with
its own status field extracted. -/
theorem matchPrompt_render (p : PromptSpec) (t : List Char) (hw : wfPromptSpec p) :
    matchPrompt (renderPrompt p ++ t) =
      some ((renderPrompt p).length, digitsVal p.statusDigits) := by
  obtain ⟨hu, hua, hh, hha, hp, hpa, h1, h2, h3, h4, hd, hda⟩ := hw
  have e0 : renderPrompt p ++ t =
      p.user ++ '@' :: (p.host ++ ':' :: (p.path ++ '[' :: p.hh1 :: p.hh2 :: ':' ::
        p.mm1 :: p.mm2 :: ']' :: '[' :: (p.statusDigits ++ ']' :: '»' :: ' ' :: t))) := by
    simp [renderPrompt]
  unfold matchPrompt
  rw [e0]
  rw [(takeWhile_stop promptClassUser hua (by decide) _).1,
    (takeWhile_stop promptClassUser hua (by decide) _).2, isEmpty_false_of_ne_nil hu]
  simp only [Bool.false_eq_true, if_false]
  rw [(takeWhile_stop promptClassHost hha (by decide) _).1,
    (takeWhile_stop promptClassHost hha (by decide) _).2, isEmpty_false_of_ne_nil hh]
  simp only [Bool.false_eq_true, if_false]
  rw [(takeWhile_stop promptClassPath hpa (by decide) _).1,
    (takeWhile_stop promptClassPath hpa (by decide) _).2, isEmpty_false_of_ne_nil hp]
  simp only [Bool.false_eq_true, if_false]
  rw [h1, h2, h3, h4]
  simp only [Bool.and_true, Bool.true_and, if_true]
  rw [(takeWhile_stop Char.isDigit hda (by decide) _).1,
    (takeWhile_stop Char.isDigit hda (by decide) _).2, isEmpty_false_of_ne_nil hd]
  simp only [Bool.false_eq_true, if_false]
  simp only [Option.some.injEq, Prod.mk.injEq]
  constructor
  · simp only [renderPrompt, List.length_append, List.length_cons, List.length_nil]
    omega
  · trivial

theorem takeWhile_append_of_all {p : Char → Bool} {a : List Char} (t : List Char)
    (ha : ∀ c ∈ a, p c = true) : (a ++ t).takeWhile p = a ++ t.takeWhile p := by
  induction a with
  | nil => simp
  | cons x xs ih =>
    have hx := ha x (by simp)
    simp only [List.cons_append, List.takeWhile_cons, hx, if_true]
    rw [ih (fun c hc => ha c (by simp [hc]))]

theorem mem_takeWhile_append {p : Char → Bool} {a t : List Char} {x : Char}
    (hstop : ∃ c ∈ a, p c = false) (hx : x ∈ (a ++ t).takeWhile p) : x ∈ a := by
  induction a with
  | nil =>
    obtain ⟨c, hc, _⟩ := hstop
    exact absurd hc (List.not_mem_nil c)
  | cons y ys ih =>
    rw [List.cons_append, List.takeWhile_cons] at hx
    cases hy : p y with
    | false => rw [hy] at hx; simp at hx
    | true =>
      rw [hy] at hx
      rcases List.mem_cons.mp hx with rfl | h
      · exact List.mem_cons_self x ys
      · obtain ⟨c, hc, hcp⟩ := hstop
        rcases List.mem_cons.mp hc with rfl | hc'
        · rw [hy] at hcp; cases hcp
        · exact List.mem_cons_of_mem y (ih ⟨c, hc', hcp⟩ h)

/-- No prompt can match where the current line holds no delimiter glyph. -/
theorem matchPrompt_none {s : List Char}
    (h : '»' ∉ s.takeWhile fun c => !(c == '\n')) : matchPrompt s = none := by
  cases hm : matchPrompt s with
  | none => rfl
  | some pair =>
    obtain ⟨len, st⟩ := pair
    obtain ⟨P, rest, hPr, hlen, hone, hnl, hdel⟩ := matchPrompt_decomp hm
    refine absurd ?_ h
    have hall : ∀ c ∈ P, (!(c == '\n')) = true := by
      intro c hc
      cases hcn : c == '\n'
      · rfl
      · exact absurd (beq_iff_eq.mp hcn ▸ hc) hnl
    rw [hPr, takeWhile_append_of_all _ hall]
    exact List.mem_append_left _ hdel

/-- Inside a command/output segment no prompt match can start: the segment
holds no delimiter, and — unless the capture ends with it — it ends at a
line break. -/
theorem matchPrompt_none_within_seg {seg rest : List Char} (hdelim : '»' ∉ seg)
    (hend : (∃ b, seg = b ++ ['\n']) ∨ rest = []) :
    ∀ i, i < seg.length → matchPrompt (seg.drop i ++ rest) = none := by
  intro i hi
  apply matchPrompt_none
  intro hmem
  rcases hend with ⟨b, rfl⟩ | rfl
  · have hib : i ≤ b.length := by
      simp only [List.length_append, List.length_singleton] at hi
      omega
    rw [List.drop_append_of_le_length hib, List.append_assoc] at hmem
    have hin := mem_takeWhile_append (p := fun c => !(c == '\n')) (t := rest)
      (a := b.drop i ++ ['\n']) ⟨'\n', by simp, by decide⟩ (by simpa using hmem)
    rcases List.mem_append.mp hin with h' | h'
    · exact hdelim (List.mem_append_left _ (List.mem_of_mem_drop h'))
    · simp at h'
  · rw [List.append_nil] at hmem
    have := List.takeWhile_sublist (l := seg.drop i) (fun c => !(c == '\n'))
    exact hdelim (List.mem_of_mem_drop (this.subset hmem))

/-- Advancing through a region already covered by a match. -/
theorem findPromptsAux_skip (a : List Char) (t : List Char) (pos skip : Nat)
    (h : a.length ≤ skip) :
    findPromptsAux (a ++ t) pos skip = findPromptsAux t (pos + a.length) (skip - a.length) := by
  induction a generalizing pos skip with
  | nil => simp
  | cons c a' ih =>
    simp only [List.length_cons] at h
    simp only [List.cons_append, findPromptsAux, List.append_eq]
    rw [if_pos (show 0 < skip by omega), ih (pos + 1) (skip - 1) (by omega)]
    simp only [List.length_cons]
    have e1 : pos + 1 + a'.length = pos + (a'.length + 1) := by omega
    have e2 : skip - 1 - a'.length = skip - (a'.length + 1) := by omega
    rw [e1, e2]

/-- Scanning a region where no match starts. -/
theorem findPromptsAux_no_match (seg t : List Char) (pos : Nat)
    (h : ∀ i, i < seg.length → matchPrompt (seg.drop i ++ t) = none) :
    findPromptsAux (seg ++ t) pos 0 = findPromptsAux t (pos + seg.length) 0 := by
  induction seg generalizing pos with
  | nil => simp
  | cons c seg' ih =>
    have h0 := h 0 (by simp)
    simp only [List.drop_zero] at h0
    simp only [List.cons_append] at h0 ⊢
    simp only [findPromptsAux, lt_self_iff_false, if_false, h0, List.append_eq]
    rw [ih (pos + 1) (fun i hi => by simpa using h (i + 1) (by simpa using hi))]
    simp only [List.length_cons]
    have e1 : pos + 1 + seg'.length = pos + (seg'.length + 1) := by omega
    rw [e1]

/-- A successful match at the head of the scan produces one record and
restarts past the match. -/
theorem findPromptsAux_cons_match {l : List Char} {pos len st : Nat}
    (hm : matchPrompt l = some (len, st)) :
    findPromptsAux l pos 0 = (pos, len, st) :: findPromptsAux l.tail (pos + 1) (len - 1) := by
  cases l with
  | nil => simp [matchPrompt] at hm
  | cons c tl => simp [findPromptsAux, hm]

/-- A capture, decomposed: each prompt occurrence with the free text that
follows it (command line plus output lines), up to the next prompt. -/
def renderCapture : List (PromptSpec × List Char) → List Char
  | [] => []
  | (p, seg) :: rest => renderPrompt p ++ (seg ++ renderCapture rest)

/-- Well-formedness (spec §3's delimiter-uniqueness invariant plus the fact
that a shell prints its prompt at the start of a line): fields stay in their
classes, no segment contains the delimiter glyph, and every segment before a
further prompt is empty or ends at a line break. -/
def wfBlocks : List (PromptSpec × List Char) → Prop
  | [] => True
  | (p, seg) :: rest =>
      wfPromptSpec p ∧ '»' ∉ seg ∧
      (rest = [] ∨ seg = [] ∨ seg.getLast? = some '\n') ∧ wfBlocks rest

instance instDecidableWfBlocks : (bs : List (PromptSpec × List Char)) → Decidable (wfBlocks bs)
  | [] => .isTrue trivial
  | (_, _) :: rest =>
      haveI : Decidable (wfBlocks rest) := instDecidableWfBlocks rest
      by unfold wfBlocks; infer_instance

/-- The match records the scanner must produce on a well-formed capture. -/
def matchList (pos : Nat) : List (PromptSpec × List Char) → List (Nat × Nat × Nat)
  | [] => []
  | (p, seg) :: rest =>
      (pos, (renderPrompt p).length, digitsVal p.statusDigits) ::
        matchList (pos + (renderPrompt p).length + seg.length) rest

theorem renderPrompt_ne_nil (p : PromptSpec) : renderPrompt p ≠ [] := by
  simp [renderPrompt]

theorem ends_newline_of_getLast {seg : List Char} (h : seg.getLast? = some '\n') :
    ∃ b, seg = b ++ ['\n'] := by
  cases hs : seg with
  | nil => rw [hs] at h; simp at h
  | cons c tl =>
    refine ⟨seg.dropLast, ?_⟩
    have hne : seg ≠ [] := by rw [hs]; simp
    have := List.dropLast_append_getLast hne
    rw [List.getLast?_eq_getLast seg hne] at h
    simp only [Option.some.injEq] at h
    rw [← hs, ← h, this]

/-- The scanner finds exactly the prompts of a well-formed capture, in
order, extracting each prompt's own status field. -/
theorem findPromptsAux_renderCapture (blocks : List (PromptSpec × List Char)) (pos : Nat)
    (hwf : wfBlocks blocks) :
    findPromptsAux (renderCapture blocks) pos 0 = matchList pos blocks := by
  induction blocks generalizing pos with
  | nil => rfl
  | cons blk rest ih =>
    obtain ⟨p, seg⟩ := blk
    obtain ⟨hwp, hdel, hend, hwrest⟩ := hwf
    have hm := matchPrompt_render p (seg ++ renderCapture rest) hwp
    show findPromptsAux (renderPrompt p ++ (seg ++ renderCapture rest)) pos 0 = _
    rw [findPromptsAux_cons_match hm]
    obtain ⟨r0, rs, hr⟩ : ∃ r0 rs, renderPrompt p = r0 :: rs := by
      cases hrp : renderPrompt p with
      | nil => exact absurd hrp (renderPrompt_ne_nil p)
      | cons a b => exact ⟨a, b, rfl⟩
    have htail : (renderPrompt p ++ (seg ++ renderCapture rest)).tail =
        rs ++ (seg ++ renderCapture rest) := by rw [hr]; rfl
    have hlen : (renderPrompt p).length = rs.length + 1 := by rw [hr]; rfl
    rw [htail, hlen]
    simp only [Nat.add_sub_cancel]
    rw [findPromptsAux_skip rs _ (pos + 1) rs.length (Nat.le_refl _), Nat.sub_self]
    have hseg : ∀ i, i < seg.length →
        matchPrompt (seg.drop i ++ renderCapture rest) = none := by
      rcases hend with rfl | rfl | hnl
      · exact matchPrompt_none_within_seg hdel (Or.inr rfl)
      · intro i hi; simp at hi
      · exact matchPrompt_none_within_seg hdel (Or.inl (ends_newline_of_getLast hnl))
    rw [findPromptsAux_no_match seg _ (pos + 1 + rs.length) hseg, ih _ hwrest]
    show _ = matchList pos ((p, seg) :: rest)
    unfold matchList
    rw [hlen]
    have e : pos + 1 + rs.length + seg.length = pos + (rs.length + 1) + seg.length := by omega
    rw [e]
    cases rest with
    | nil => rfl
    | cons b r => rfl

/-- The status code a block receives: that of the following block's prompt,
`-1` when none follows. -/
def blockCode : List (PromptSpec × List Char) → Int
  | [] => -1
  | (p2, _) :: _ => (digitsVal p2.statusDigits : Int)

/-- The entries the spec prescribes for a well-formed capture: one entry per
block whose command line is non-empty after trimming, in order, with the
status of the *following* prompt (or `-1` when none follows). -/
def blockEntries : List (PromptSpec × List Char) → List CommandExecHistory
  | [] => []
  | (_, seg) :: rest =>
      if (trimSpace (firstLine seg)).isEmpty then blockEntries rest
      else { Command := trimSpace (firstLine seg),
             Output := trimSpace (restLines seg),
             Code := blockCode rest } :: blockEntries rest

/-- Segmentation of a well-formed capture recovers each block's free text. -/
theorem buildEntries_matchList (blocks : List (PromptSpec × List Char)) (A : List Char) :
    buildEntries (A ++ renderCapture blocks) (matchList A.length blocks) = blockEntries blocks := by
  induction blocks generalizing A with
  | nil => rfl
  | cons blk rest ih =>
    obtain ⟨p, seg⟩ := blk
    have hml : matchList A.length ((p, seg) :: rest) =
        (A.length, (renderPrompt p).length, digitsVal p.statusDigits) ::
          matchList (A.length + (renderPrompt p).length + seg.length) rest := rfl
    rw [hml]
    simp only [buildEntries, blockEntries]
    cases rest with
    | nil =>
      have hm0 : matchList (A.length + (renderPrompt p).length + seg.length)
          ([] : List (PromptSpec × List Char)) = [] := rfl
      rw [hm0]
      have hdrop : (A ++ renderCapture [(p, seg)]).drop
          (A.length + (renderPrompt p).length) = seg := by
        show (A ++ (renderPrompt p ++ (seg ++ []))).drop _ = seg
        rw [List.append_nil, ← List.append_assoc, ← List.length_append, List.drop_left]
      have hidx : nextEnd (A ++ renderCapture [(p, seg)]) [] -
          (A.length + (renderPrompt p).length) = seg.length := by
        show (A ++ (renderPrompt p ++ (seg ++ []))).length - _ = _
        simp
        omega
      rw [hdrop, hidx, List.take_length]
      rfl
    | cons blk2 r =>
      obtain ⟨p2, seg2⟩ := blk2
      have hm0 : matchList (A.length + (renderPrompt p).length + seg.length)
          ((p2, seg2) :: r) =
          (A.length + (renderPrompt p).length + seg.length,
            (renderPrompt p2).length, digitsVal p2.statusDigits) ::
            matchList (A.length + (renderPrompt p).length + seg.length +
              (renderPrompt p2).length + seg2.length) r := rfl
      rw [hm0]
      have hdrop : (A ++ renderCapture ((p, seg) :: (p2, seg2) :: r)).drop
          (A.length + (renderPrompt p).length) = seg ++ renderCapture ((p2, seg2) :: r) := by
        show (A ++ (renderPrompt p ++ (seg ++ renderCapture ((p2, seg2) :: r)))).drop _ = _
        rw [← List.append_assoc, ← List.length_append, List.drop_left]
      have hidx : nextEnd (A ++ renderCapture ((p, seg) :: (p2, seg2) :: r))
          ((A.length + (renderPrompt p).length + seg.length,
            (renderPrompt p2).length, digitsVal p2.statusDigits) ::
            matchList (A.length + (renderPrompt p).length + seg.length +
              (renderPrompt p2).length + seg2.length) r) -
          (A.length + (renderPrompt p).length) = seg.length := by
        show A.length + (renderPrompt p).length + seg.length -
          (A.length + (renderPrompt p).length) = seg.length
        omega
      rw [hdrop, hidx, List.take_left]
      have hs' : A ++ renderCapture ((p, seg) :: (p2, seg2) :: r) =
          (A ++ renderPrompt p ++ seg) ++ renderCapture ((p2, seg2) :: r) := by
        show A ++ (renderPrompt p ++ (seg ++ renderCapture ((p2, seg2) :: r))) = _
        simp [List.append_assoc]
      have hihm := ih (A ++ renderPrompt p ++ seg)
      have hlenA : (A ++ renderPrompt p ++ seg).length =
          A.length + (renderPrompt p).length + seg.length := by simp; omega
      rw [hlenA, hm0] at hihm
      rw [hs', hihm]
      rfl

/-- C1: on every well-formed capture the transcript parser returns one entry
per non-empty command segment, in order of appearance; the `Code` of each
entry is the status field extracted from the prompt match that *follows* the
command, and when no following prompt match exists (the capture ends
mid-command) the entry's `Code` is `-1` regardless of the status text already
present in that command's own prompt (`blockEntries` ignores the final
block's status field). -/
theorem parse_wellformed_capture (blocks : List (PromptSpec × List Char))
    (hwf : wfBlocks blocks) :
    parseExecPaneCommandHistoryWithContent (renderCapture blocks) = blockEntries blocks := by
  unfold parseExecPaneCommandHistoryWithContent findPrompts
  rw [findPromptsAux_renderCapture blocks 0 hwf]
  have := buildEntries_matchList blocks []
  simpa using this

/-- The mixed-format fixture of `TestParseExecPaneCommandHistory_MixedFormats`,
decomposed into prompt/segment blocks. -/
def mixedBlocks : List (PromptSpec × List Char) :=
  [({ user := "user".toList, host := "host".toList, path := "/tmp".toList,
      hh1 := '0', hh2 := '9', mm1 := '1', mm2 := '5', statusDigits := "0".toList },
    "echo \"test1\"\ntest1\n".toList),
   ({ user := "different".toList, host := "machine".toList, path := "/home".toList,
      hh1 := '2', hh2 := '3', mm1 := '5', mm2 := '9', statusDigits := "1".toList },
    "echo \"test2\"\ntest2\n".toList),
   ({ user := "user".toList, host := "localhost".toList, path := "~".toList,
      hh1 := '0', hh2 := '0', mm1 := '0', mm2 := '0', statusDigits := "0".toList },
    [])]

/-- The blocks render to exactly the raw text of the test fixture. -/
example :
    renderCapture mixedBlocks =
      ("user@host:/tmp[09:15][0]» echo \"test1\"\ntest1\n" ++
       "different@machine:/home[23:59][1]» echo \"test2\"\ntest2\n" ++
       "user@localhost:~[00:00][0]» ").toList := by
  decide

/-- Witness for C1 on the mixed-format fixture: two entries, in order, each
taking the status of the following prompt (1 then 0); the empty trailing
segment yields no entry. -/
theorem parse_wellformed_capture_witness :
    parseExecPaneCommandHistoryWithContent (renderCapture mixedBlocks) =
      [{ Command := "echo \"test1\"".toList, Output := "test1".toList, Code := 1 },
       { Command := "echo \"test2\"".toList, Output := "test2".toList, Code := 0 }] := by
  rw [parse_wellformed_capture mixedBlocks (by decide)]
  decide

/-! ## Prompt preparation

Modelled from the spec (§4.2): the Go file defining `PrepareExecPaneWithShell`
is not under `src/`; only its tests are (`exec_pane_test.go`,
`chat_command_test.go`).  Three shell families are recognized; each gets its
shell-specific prompt-rewrite command followed by the shared clear-screen
directive; anything else gets zero directives and a warning. -/

def bashPreparePrompt : List Char :=
  "PS1=\x27\\u@\\h:\\w[\\A][$?]» \x27".toList
def zshPreparePrompt : List Char :=
  "PROMPT=\x27%n@%m:%~[%T][%?]» \x27".toList
def fishPreparePrompt : List Char :=
  "function fish_prompt; printf \x27%s@%s:%s[%s][%s]» \x27 (whoami) (hostname) (prompt_pwd) (date +%H:%M) $status; end".toList

/-- The shared clear-screen directive (tmux `C-l` key). -/
def clearPane : List Char := "C-l".toList

def supportedShells : List (List Char) := ["bash".toList, "zsh".toList, "fish".toList]

def shellPromptCommand (sh : List Char) : Option (List Char) :=
  if sh = "bash".toList then some bashPreparePrompt
  else if sh = "zsh".toList then some zshPreparePrompt
  else if sh = "fish".toList then some fishPreparePrompt
  else none

/-- Modelled from the spec (§4.2): `Prepare(shell)`.  When no shell is given,
the pane's detected current program is consulted.  Returns the pane
directives to send and whether a warning is surfaced instead. -/
def PrepareExecPaneWithShell (shell : List Char) (currentCommand : List Char) :
    List (List Char) × Bool :=
  let target := if shell.isEmpty then currentCommand else shell
  match shellPromptCommand target with
  | some c => ([c, clearPane], false)
  | none => ([], true)

/-- C8: each of the three recognized shell families gets exactly two pane
directives — the shell-specific prompt-rewrite command, then the shared
clear-screen directive — with no warning; an unrecognized explicit shell, or
no shell with an unsupported detected current program, yields zero
directives and a warning. -/
theorem prepare_exec_pane_spec :
    (∀ cc, PrepareExecPaneWithShell "bash".toList cc = ([bashPreparePrompt, clearPane], false))
    ∧ (∀ cc, PrepareExecPaneWithShell "zsh".toList cc = ([zshPreparePrompt, clearPane], false))
    ∧ (∀ cc, PrepareExecPaneWithShell "fish".toList cc = ([fishPreparePrompt, clearPane], false))
    ∧ containsSub bashPreparePrompt "PS1=".toList = true
    ∧ containsSub zshPreparePrompt "PROMPT=".toList = true
    ∧ containsSub fishPreparePrompt "fish_prompt".toList = true
    ∧ (∀ sh cc, sh ≠ [] → sh ∉ supportedShells →
        PrepareExecPaneWithShell sh cc = ([], true))
    ∧ (∀ cc, cc ∉ supportedShells →
        PrepareExecPaneWithShell [] cc = ([], true)) := by
  refine ⟨fun cc => rfl, fun cc => rfl, fun cc => rfl, by decide, by decide, by decide,
    ?_, ?_⟩
  · intro sh cc h1 h2
    simp only [supportedShells, List.mem_cons, List.not_mem_nil, or_false, not_or] at h2
    obtain ⟨hb, hz, hf⟩ := h2
    simp only [PrepareExecPaneWithShell, shellPromptCommand,
      isEmpty_false_of_ne_nil h1, Bool.false_eq_true, if_false]
    rw [if_neg hb, if_neg hz, if_neg hf]
  · intro cc h2
    simp only [supportedShells, List.mem_cons, List.not_mem_nil, or_false, not_or] at h2
    obtain ⟨hb, hz, hf⟩ := h2
    simp only [PrepareExecPaneWithShell, shellPromptCommand, List.isEmpty_nil, if_true]
    rw [if_neg hb, if_neg hz, if_neg hf]

/-- Witness for C8: the unsupported shell of `TestPrepareExecPaneWithShell`
(`tcsh`) produces zero directives with a warning, while `bash` produces its
two directives. -/
theorem prepare_exec_pane_spec_witness :
    PrepareExecPaneWithShell "tcsh".toList [] = ([], true) ∧
    PrepareExecPaneWithShell "bash".toList "unknown".toList =
      ([bashPreparePrompt, clearPane], false) :=
  ⟨prepare_exec_pane_spec.2.2.2.2.2.2.1 "tcsh".toList [] (by decide) (by decide),
   prepare_exec_pane_spec.1 "unknown".toList⟩

/-! ## Pane poller (Exec-Wait-Capture)

Modelled from the spec (§4.3): the Go file defining `ExecWaitCapture` is not
under `src/`; only its tests are.  Protocol: send the command exactly once,
poll bounded re-captures of the pane (stopping early on external clearing of
the session status or on detecting a prompt on the trailing line), then parse
the final capture; fail with "failed to parse command history" and a
zero-valued entry when the parse yields nothing or its most recent entry is
not the issued command. -/

/-- The collaborating environment of one `ExecWaitCapture` call: the pane
text captured at each attempt, external cancellation, and the configured
bound on capture attempts. -/
structure WaitEnv where
  capture : Nat → List Char
  cancelAt : Nat → Bool
  maxAttempts : Nat

/-- The trailing line of a capture. -/
def lastLineOf (t : List Char) : List Char :=
  (t.reverse.takeWhile fun c => !(c == '\n')).reverse

/-- Completion: the trailing line matches the prompt pattern. -/
def paneCompleted (t : List Char) : Bool :=
  (matchPrompt (lastLineOf t)).isSome

/-- The bounded polling loop: at most `left` further capture attempts
starting at attempt index `n`; stops early on external cancellation or on
completion.  Returns the total number of captures performed. -/
def waitLoop (we : WaitEnv) : Nat → Nat → Nat
  | 0, n => n
  | left + 1, n =>
      if we.cancelAt n then n
      else if paneCompleted (we.capture n) then n + 1
      else waitLoop we left (n + 1)

def execWaitCaptureErr : List Char := "failed to parse command history".toList

/-- Modelled from the spec (§4.3): `ExecWaitCapture(command)`.  Returns the
entry, the error (`none` on success), the number of sends (the command is
sent exactly once, before polling starts), and the number of polls. -/
def ExecWaitCapture (we : WaitEnv) (command : List Char) :
    CommandExecHistory × Option (List Char) × Nat × Nat :=
  let polls := waitLoop we we.maxAttempts 0
  let finalText := if polls = 0 then [] else we.capture (polls - 1)
  let entries := parseExecPaneCommandHistoryWithContent finalText
  match entries.getLast? with
  | none => ({ Command := [], Output := [], Code := 0 }, some execWaitCaptureErr, 1, polls)
  | some e =>
      if e.Command = command then (e, none, 1, polls)
      else ({ Command := [], Output := [], Code := 0 }, some execWaitCaptureErr, 1, polls)

theorem matchPrompt_nil : matchPrompt [] = none := rfl

/-- When the scanner finds nothing, no suffix of the text holds a match. -/
theorem matchPrompt_none_of_scan_nil {t : List Char} {pos : Nat}
    (h : findPromptsAux t pos 0 = []) : ∀ i, matchPrompt (t.drop i) = none := by
  induction t generalizing pos with
  | nil => intro i; rw [List.drop_nil]; exact matchPrompt_nil
  | cons c tl ih =>
    cases hm : matchPrompt (c :: tl) with
    | some pair =>
      simp only [findPromptsAux, lt_self_iff_false, if_false, hm] at h
      obtain ⟨len, st⟩ := pair
      simp at h
    | none =>
      simp only [findPromptsAux, lt_self_iff_false, if_false, hm] at h
      intro i
      cases i with
      | zero => exact hm
      | succ j => exact ih h j

/-- The trailing line is a suffix of the capture. -/
theorem lastLineOf_suffix (t : List Char) : ∃ pre, t = pre ++ lastLineOf t := by
  refine ⟨(t.reverse.dropWhile fun c => !(c == '\n')).reverse, ?_⟩
  unfold lastLineOf
  calc t = t.reverse.reverse := by simp
  _ = ((t.reverse.takeWhile fun c => !(c == '\n')) ++
        (t.reverse.dropWhile fun c => !(c == '\n'))).reverse := by
        rw [List.takeWhile_append_dropWhile]
  _ = (t.reverse.dropWhile fun c => !(c == '\n')).reverse ++
        (t.reverse.takeWhile fun c => !(c == '\n')).reverse := by
        rw [List.reverse_append]

theorem paneCompleted_false_of_scan_nil {t : List Char}
    (h : findPrompts t = []) : paneCompleted t = false := by
  obtain ⟨pre, hpre⟩ := lastLineOf_suffix t
  have hdrop : t.drop pre.length = lastLineOf t := by
    conv_lhs => rw [hpre]
    exact List.drop_left pre (lastLineOf t)
  have h0 : findPromptsAux t 0 0 = [] := h
  have := matchPrompt_none_of_scan_nil (t := t) h0 pre.length
  rw [hdrop] at this
  simp [paneCompleted, this]

theorem waitLoop_le (we : WaitEnv) : ∀ left n, waitLoop we left n ≤ n + left := by
  intro left
  induction left with
  | zero => intro n; simp [waitLoop]
  | succ l ih =>
    intro n
    simp only [waitLoop]
    split
    · omega
    · split
      · omega
      · have := ih (n + 1)
        omega

theorem waitLoop_full (we : WaitEnv) (hc : ∀ n, we.cancelAt n = false)
    (hnc : ∀ n, paneCompleted (we.capture n) = false) :
    ∀ left n, waitLoop we left n = n + left := by
  intro left
  induction left with
  | zero => intro n; simp [waitLoop]
  | succ l ih =>
    intro n
    simp only [waitLoop, hc n, hnc n, Bool.false_eq_true, if_false]
    rw [ih (n + 1)]
    omega

/-- Entries of a capture with no prompt matches. -/
theorem parse_eq_nil_of_no_prompts (content : List Char)
    (h : findPrompts content = []) :
    parseExecPaneCommandHistoryWithContent content = [] := by
  unfold parseExecPaneCommandHistoryWithContent
  rw [h]
  rfl

/-- C2: against a pane whose captured text never matches the active prompt
pattern, `ExecWaitCapture` sends the command exactly once, polls until its
bound (or until external cancellation), and returns the error
"failed to parse command history" together with a zero-valued entry. -/
theorem exec_wait_capture_foreign_prompt (we : WaitEnv) (command : List Char)
    (h : ∀ n, findPrompts (we.capture n) = []) :
    ExecWaitCapture we command =
      ({ Command := [], Output := [], Code := 0 }, some execWaitCaptureErr, 1,
        waitLoop we we.maxAttempts 0)
    ∧ waitLoop we we.maxAttempts 0 ≤ we.maxAttempts
    ∧ ((∀ n, we.cancelAt n = false) → waitLoop we we.maxAttempts 0 = we.maxAttempts) := by
  refine ⟨?_, by simpa using waitLoop_le we we.maxAttempts 0, ?_⟩
  · have hparse : parseExecPaneCommandHistoryWithContent
        (if waitLoop we we.maxAttempts 0 = 0 then []
         else we.capture (waitLoop we we.maxAttempts 0 - 1)) = [] := by
      split
      · exact parse_eq_nil_of_no_prompts _ rfl
      · exact parse_eq_nil_of_no_prompts _ (h _)
    simp only [ExecWaitCapture]
    rw [hparse]
    rfl
  · intro hc
    have := waitLoop_full we hc (fun n => paneCompleted_false_of_scan_nil (h n))
      we.maxAttempts 0
    simpa using this

/-- The never-matching SSH capture of `TestExecWaitCapture_SSHScenario`. -/
def sshCaptureText : List Char :=
  "user@remote-server:~$ ls -la\ntotal 12\nuser@remote-server:~$ ".toList

def sshWaitEnv : WaitEnv :=
  { capture := fun _ => sshCaptureText, cancelAt := fun _ => false, maxAttempts := 3 }

/-- Witness for C2 on the SSH fixture of `TestExecWaitCapture_SSHScenario`:
a foreign `user@remote-server:~$` prompt never matches, so the call errors
with a zero entry after one send and a full poll. -/
theorem exec_wait_capture_foreign_prompt_witness :
    ExecWaitCapture sshWaitEnv "ls -la".toList =
      ({ Command := [], Output := [], Code := 0 }, some execWaitCaptureErr, 1, 3) := by
  have hscan : ∀ n : Nat, findPrompts (sshWaitEnv.capture n) = [] :=
    fun _ => show findPrompts sshCaptureText = [] from by decide
  have main := exec_wait_capture_foreign_prompt sshWaitEnv "ls -la".toList hscan
  rw [main.1, main.2.2 (fun _ => rfl)]
  rfl

/-! ## Turn orchestrator (`ProcessUserMessage`, src/internal/process_message.go)

The orchestrator is translated from `process_message.go` with its external
collaborators (squash predicate, pane capture, chat client, confirmation
prompts, browser client, concurrent cancellation) passed in as oracles.  A
`tick` counter sequences oracle consumption; concurrent clearing of the
shared status (chat.go's interrupt handler sets `Status = ""`) is modelled
as a possible clear at each point where the Go code reads `m.Status`.
Wall-clock sleeps and printing have no observable effect and are dropped;
`Timestamp` fields (Go `time.Now()`) are taken as 0.  The value returned is
the final state, the accomplished flag, and the trace of observable
actions. -/

/-- The pane fields `ProcessUserMessage` reads (`system.TmuxPaneDetails`). -/
structure TmuxPaneDetails where
  Id : List Char := []
  IsSubShell : Bool := false
  IsPrepared : Bool := false
  Shell : List Char := []
  OS : List Char := []
deriving Repr, DecidableEq

/-- `ChatMessage` (src/internal/chat.go:20-24). -/
structure ChatMessage where
  Content : List Char
  FromUser : Bool
  Timestamp : Nat := 0
deriving Repr, DecidableEq

/-- The `Manager` state `ProcessUserMessage` mutates. -/
structure MState where
  Messages : List ChatMessage := []
  Status : List Char := []
  WatchMode : Bool := false
  ExecPane : TmuxPaneDetails := {}
  tick : Nat := 0
deriving Repr, DecidableEq

/-- Observable actions of a turn. -/
inductive Event where
  | squashed
  | aiCalled (sending : List ChatMessage)
  | appended (userMsg assistantMsg : ChatMessage)
  | execWaitSent (cmd : List Char)
  | paneSent (text : List Char) (enter : Bool)
  | browserActed (action : List Char)
  | recursed (input : List Char)
deriving Repr, DecidableEq

/-- External collaborators and configuration, consumed through `tick`. -/
structure Env where
  needSquash : List ChatMessage → Bool
  squashHistory : List ChatMessage → List ChatMessage
  panesXml : Nat → List Char
  watchPrompt : ChatMessage
  assistantPrompt : Bool → ChatMessage
  aiCall : Nat → Except (List Char) (List Char)
  jsonValidObject : List Char → Bool
  confirm : Nat → Bool × List Char
  browserExec : Nat → Except (List Char) (List Char)
  cancelAt : Nat → Bool
  execConfirm : Bool
  sendKeysConfirm : Bool
  pasteConfirm : Bool

/-- A read of the shared `Status`: a concurrent interrupt may have cleared
it just before (chat.go:141-149 clears it to `""`). -/
def applyCancel (env : Env) (st : MState) : MState :=
  let st' := { st with tick := st.tick + 1 }
  if env.cancelAt st.tick then { st' with Status := [] } else st'

def busyProbeMsg : List Char :=
  "waited for 5 more seconds, here is the current pane(s) content".toList

def updateProbeMsg : List Char := "sending updated pane(s) content".toList

/-- The ExecCommand loop (src/internal/process_message.go:139-162): each
command is confirmed when configured, then run through wait-capture on a
prepared pane or fire-and-forget otherwise; a declined confirmation clears
status and aborts the turn (third component `false`). -/
def runExecCommands (env : Env) (isPrepared : Bool) :
    List (List Char) → MState → MState × List Event × Bool
  | [], st => (st, [], true)
  | cmd :: rest, st =>
    let conf := if env.execConfirm then env.confirm st.tick else (true, cmd)
    let st1 := if env.execConfirm then { st with tick := st.tick + 1 } else st
    if conf.1 then
      let ev := if isPrepared then Event.execWaitSent conf.2 else Event.paneSent conf.2 true
      let rec1 := runExecCommands env isPrepared rest st1
      (rec1.1, ev :: rec1.2.1, rec1.2.2)
    else ({ st1 with Status := [] }, [], false)

/-- The per-key status checks of the SendKeys preview loop
(src/internal/process_message.go:175-177). -/
def runSendKeysStatusChecks (env : Env) :
    List (List Char) → MState → MState × Bool
  | [], st => (st, true)
  | _ :: rest, st =>
    let st' := applyCancel env st
    if st'.Status = [] then (st', false)
    else runSendKeysStatusChecks env rest st'

/-- Flag handling and the closing probe of a turn
(src/internal/process_message.go:266-288). -/
def processFlags (_env : Env)
    (pum : MState → List Char → MState × Bool × List Event)
    (r : AIResponse) (st : MState) : MState × Bool × List Event :=
  if r.RequestAccomplished then ({ st with Status := [] }, true, [])
  else if r.WaitingForUserResponse then ({ st with Status := "waiting".toList }, false, [])
  else if r.NoComment then (st, false, [])
  else if !st.WatchMode then
    let rec1 := pum st updateProbeMsg
    (rec1.1, rec1.2.1, Event.recursed updateProbeMsg :: rec1.2.2)
  else (st, false, [])

/-- Paste handling (src/internal/process_message.go:245-264) followed by the
flags. -/
def processPaste (env : Env)
    (pum : MState → List Char → MState × Bool × List Event)
    (r : AIResponse) (st : MState) : MState × Bool × List Event :=
  if r.PasteMultilineContent ≠ [] then
    let conf := if env.pasteConfirm then env.confirm st.tick else (true, [])
    let st1 := if env.pasteConfirm then { st with tick := st.tick + 1 } else st
    if conf.1 then
      let rec1 := processFlags env pum r st1
      (rec1.1, rec1.2.1, Event.paneSent r.PasteMultilineContent true :: rec1.2.2)
    else ({ st1 with Status := [] }, false, [])
  else processFlags env pum r st

/-- Busy re-probe (src/internal/process_message.go:233-242) followed by the
rest of the turn. -/
def processBusy (env : Env)
    (pum : MState → List Char → MState × Bool × List Event)
    (r : AIResponse) (st : MState) : MState × Bool × List Event :=
  if r.ExecPaneSeemsBusy then
    let rec1 := pum st busyProbeMsg
    if rec1.2.1 then (rec1.1, true, Event.recursed busyProbeMsg :: rec1.2.2)
    else
      let rec2 := processPaste env pum r rec1.1
      (rec2.1, rec2.2.1, (Event.recursed busyProbeMsg :: rec1.2.2) ++ rec2.2.2)
  else processPaste env pum r st

/-- BrowserAction handling (src/internal/process_message.go:207-231) and the
rest of the turn. -/
def processBrowser (env : Env)
    (pum : MState → List Char → MState × Bool × List Event)
    (r : AIResponse) (st : MState) : MState × Bool × List Event :=
  if r.BrowserAction ≠ [] then
    let conf := if env.execConfirm then env.confirm st.tick else (true, [])
    let st1 := if env.execConfirm then { st with tick := st.tick + 1 } else st
    if conf.1 then
      match env.browserExec st1.tick with
      | .error _ =>
        ({ st1 with tick := st1.tick + 1, Status := [] }, false,
          [Event.browserActed r.BrowserAction])
      | .ok _ =>
        let rec1 := processBusy env pum r { st1 with tick := st1.tick + 1 }
        (rec1.1, rec1.2.1, Event.browserActed r.BrowserAction :: rec1.2.2)
    else ({ st1 with Status := [] }, false, [])
  else processBusy env pum r st

/-- SendKeys handling (src/internal/process_message.go:165-204) and the rest
of the turn. -/
def processSendKeys (env : Env)
    (pum : MState → List Char → MState × Bool × List Event)
    (r : AIResponse) (st : MState) : MState × Bool × List Event :=
  if r.SendKeys ≠ [] then
    let chk := runSendKeysStatusChecks env r.SendKeys st
    if chk.2 then
      let conf := if env.sendKeysConfirm then env.confirm chk.1.tick else (true, [])
      let st2 := if env.sendKeysConfirm then { chk.1 with tick := chk.1.tick + 1 } else chk.1
      if conf.1 then
        let rec1 := processBrowser env pum r st2
        (rec1.1, rec1.2.1, (r.SendKeys.map fun k => Event.paneSent k false) ++ rec1.2.2)
      else ({ st2 with Status := [] }, false, [])
    else (chk.1, false, [])
  else processBrowser env pum r st

/-- `ProcessUserMessage` (src/internal/process_message.go:18-288), with
`fuel` bounding the recursion depth (the Go code recurses unboundedly; a run
that would exceed the fuel is cut off as not-accomplished). -/
def ProcessUserMessage (env : Env) : Nat → MState → List Char → MState × Bool × List Event
  | 0, st, _ => (st, false, [])
  | fuel + 1, st, message =>
    let squash := env.needSquash st.Messages
    let st1 := if squash then { st with Messages := env.squashHistory st.Messages } else st
    let ev1 : List Event := if squash then [Event.squashed] else []
    let st2 := applyCancel env st1
    if st2.Status = [] then (st2, false, ev1) else
    let currentTmuxWindow := env.panesXml st2.tick
    let st3 := { st2 with tick := st2.tick + 1 }
    let execPaneEnv :=
      if !st3.ExecPane.IsSubShell then
        "Keep in mind, you are working within the shell: ".toList ++ st3.ExecPane.Shell ++
          " and OS: ".toList ++ st3.ExecPane.OS
      else []
    let currentMessage : ChatMessage :=
      { Content := currentTmuxWindow ++ "\n\n".toList ++ execPaneEnv ++
          "\n\n".toList ++ message,
        FromUser := true }
    let history :=
      if st3.WatchMode then [env.watchPrompt]
      else if st3.ExecPane.IsPrepared then [env.assistantPrompt true]
      else [env.assistantPrompt false]
    let sending := (history ++ st3.Messages) ++ [currentMessage]
    match env.aiCall st3.tick with
    | .error _ =>
      ({ st3 with tick := st3.tick + 1, Status := [] }, false, ev1 ++ [Event.aiCalled sending])
    | .ok response =>
    let st4 := { st3 with tick := st3.tick + 1 }
    let st5 := applyCancel env st4
    if st5.Status = [] then (st5, false, ev1 ++ [Event.aiCalled sending]) else
    match parseAIResponseE env.jsonValidObject response with
    | .error _ => ({ st5 with Status := [] }, false, ev1 ++ [Event.aiCalled sending])
    | .ok r =>
    let responseMsg : ChatMessage := { Content := response, FromUser := false }
    let guideline := aiFollowedGuidelines st5.WatchMode r
    if !guideline.2 then
      let st6 := { st5 with Messages := st5.Messages ++ [currentMessage, responseMsg] }
      let rec1 := ProcessUserMessage env fuel st6 guideline.1
      (rec1.1, rec1.2.1,
        ev1 ++ [Event.aiCalled sending, Event.appended currentMessage responseMsg,
          Event.recursed guideline.1] ++ rec1.2.2)
    else
    let persist := !(r.ExecPaneSeemsBusy || r.NoComment)
    let st6 :=
      if persist then { st5 with Messages := st5.Messages ++ [currentMessage, responseMsg] }
      else st5
    let ev2 : List Event :=
      if persist then [Event.appended currentMessage responseMsg] else []
    let recE := runExecCommands env st6.ExecPane.IsPrepared r.ExecCommand st6
    if recE.2.2 then
      let recK := processSendKeys env (ProcessUserMessage env fuel) r recE.1
      (recK.1, recK.2.1, ev1 ++ [Event.aiCalled sending] ++ ev2 ++ recE.2.1 ++ recK.2.2)
    else (recE.1, false, ev1 ++ [Event.aiCalled sending] ++ ev2 ++ recE.2.1)

/-! ### The accomplished-implies-idle invariant (C9) -/

/-- A continuation that clears the status whenever it reports the request
accomplished. -/
def PumOk (pum : MState → List Char → MState × Bool × List Event) : Prop :=
  ∀ st m, (pum st m).2.1 = true → (pum st m).1.Status = []

theorem processFlags_ok {env : Env} {pum} {r : AIResponse} {st : MState} (h : PumOk pum) :
    (processFlags env pum r st).2.1 = true → (processFlags env pum r st).1.Status = [] := by
  simp only [processFlags]
  repeat' split
  all_goals intro hacc
  all_goals
    first
      | rfl
      | exact hacc.elim
      | exact absurd hacc Bool.false_ne_true
      | exact h _ _ hacc

theorem processPaste_ok {env : Env} {pum} {r : AIResponse} {st : MState} (h : PumOk pum) :
    (processPaste env pum r st).2.1 = true → (processPaste env pum r st).1.Status = [] := by
  simp only [processPaste]
  repeat' split
  all_goals intro hacc
  all_goals
    first
      | rfl
      | exact hacc.elim
      | exact absurd hacc Bool.false_ne_true
      | exact processFlags_ok h hacc

theorem processBusy_ok {env : Env} {pum} {r : AIResponse} {st : MState} (h : PumOk pum) :
    (processBusy env pum r st).2.1 = true → (processBusy env pum r st).1.Status = [] := by
  simp only [processBusy]
  repeat' split
  all_goals intro hacc
  all_goals
    first
      | rfl
      | exact hacc.elim
      | exact absurd hacc Bool.false_ne_true
      | exact h _ _ (by assumption)
      | exact processPaste_ok h hacc

theorem processBrowser_ok {env : Env} {pum} {r : AIResponse} {st : MState} (h : PumOk pum) :
    (processBrowser env pum r st).2.1 = true → (processBrowser env pum r st).1.Status = [] := by
  simp only [processBrowser]
  repeat' split
  all_goals intro hacc
  all_goals
    first
      | rfl
      | exact hacc.elim
      | exact absurd hacc Bool.false_ne_true
      | exact processBusy_ok h hacc

theorem processSendKeys_ok {env : Env} {pum} {r : AIResponse} {st : MState} (h : PumOk pum) :
    (processSendKeys env pum r st).2.1 = true → (processSendKeys env pum r st).1.Status = [] := by
  simp only [processSendKeys]
  repeat' split
  all_goals intro hacc
  all_goals
    first
      | rfl
      | exact hacc.elim
      | exact absurd hacc Bool.false_ne_true
      | exact processBrowser_ok h hacc

set_option maxHeartbeats 2000000 in
/-- C9: whenever `ProcessUserMessage` returns `true` (request accomplished)
the shared status has been cleared to the idle value before returning; this
is preserved through every recursive continuation (busy re-probe, guideline
correction, and the non-watch-mode probe). -/
theorem accomplished_implies_idle (env : Env) :
    ∀ fuel st msg, (ProcessUserMessage env fuel st msg).2.1 = true →
      (ProcessUserMessage env fuel st msg).1.Status = [] := by
  intro fuel
  induction fuel with
  | zero =>
    intro st msg h
    exact absurd h (by simp [ProcessUserMessage])
  | succ n ih =>
    intro st msg
    have hPum : PumOk (ProcessUserMessage env n) := fun st' m' => ih st' m'
    simp only [ProcessUserMessage]
    repeat' split
    all_goals intro hacc
    all_goals
      first
        | rfl
        | exact hacc.elim
        | exact absurd hacc Bool.false_ne_true
        | exact ih _ _ hacc
        | exact processSendKeys_ok hPum hacc

/-! ### Transport failure (C7) and guideline failure (C4) -/

/-- C7: when the chat collaborator call fails (transport error, including
user cancellation), the turn clears the shared status to idle and stops,
returning `false`, with no mutation of the chat history and no pane action:
the whole observable trace is the single chat call. -/
theorem chat_failure_aborts (env : Env) (fuel : Nat) (st : MState) (msg e : List Char)
    (hst : ¬ st.Status = [])
    (hns : env.needSquash st.Messages = false)
    (hc : env.cancelAt st.tick = false)
    (hai : env.aiCall (st.tick + 2) = Except.error e) :
    ∃ sending, ProcessUserMessage env (fuel + 1) st msg =
      ({ st with Status := [], tick := st.tick + 3 }, false, [Event.aiCalled sending]) := by
  have hai' : env.aiCall (st.tick + 1 + 1) = Except.error e := hai
  simp only [ProcessUserMessage, hns, applyCancel, hc, Bool.false_eq_true, if_false,
    hst, hai']
  exact ⟨_, rfl⟩

/-- C4 (amended): when the guideline validator rejects the model reply, the
turn appends the current exchange (the outbound user message and the raw
reply) to the chat history, executes no action from the invalid response
(the trace before the recursion holds only the chat call and the append),
and immediately recurses using the corrective instruction string as the next
turn's input. -/
theorem guideline_failure_appends_and_recurses (env : Env) (fuel : Nat) (st : MState)
    (msg response gmsg : List Char)
    (hst : ¬ st.Status = [])
    (hns : env.needSquash st.Messages = false)
    (hc1 : env.cancelAt st.tick = false)
    (hai : env.aiCall (st.tick + 2) = Except.ok response)
    (hc2 : env.cancelAt (st.tick + 3) = false)
    (hguide : aiFollowedGuidelines st.WatchMode
        (parseAIResponse env.jsonValidObject response) = (gmsg, false)) :
    ∃ currentMessage sending,
      ProcessUserMessage env (fuel + 1) st msg =
        ((ProcessUserMessage env fuel
            { st with
              tick := st.tick + 4,
              Messages := st.Messages ++
                [currentMessage, { Content := response, FromUser := false }] } gmsg).1,
         (ProcessUserMessage env fuel
            { st with
              tick := st.tick + 4,
              Messages := st.Messages ++
                [currentMessage, { Content := response, FromUser := false }] } gmsg).2.1,
         [Event.aiCalled sending,
          Event.appended currentMessage { Content := response, FromUser := false },
          Event.recursed gmsg] ++
           (ProcessUserMessage env fuel
              { st with
                tick := st.tick + 4,
                Messages := st.Messages ++
                  [currentMessage, { Content := response, FromUser := false }] } gmsg).2.2) := by
  have hai' : env.aiCall (st.tick + 1 + 1) = Except.ok response := hai
  have hc2' : env.cancelAt (st.tick + 1 + 1 + 1) = false := hc2
  simp only [ProcessUserMessage, hns, applyCancel, hc1, hc2', Bool.false_eq_true, if_false,
    hst, hai', parseAIResponseE, hguide]
  exact ⟨_, _, rfl⟩

/-! ### Concrete runs of the orchestrator -/

/-- A deterministic collaborator environment whose chat client always gives
the same answer, with no squashing, no confirmations required, and no
concurrent cancellation. -/
def oracleEnv (resp : Except (List Char) (List Char)) : Env :=
  { needSquash := fun _ => false
    squashHistory := fun ms => ms
    panesXml := fun _ => []
    watchPrompt := { Content := [], FromUser := true }
    assistantPrompt := fun _ => { Content := [], FromUser := true }
    aiCall := fun _ => resp
    jsonValidObject := fun _ => false
    confirm := fun _ => (true, [])
    browserExec := fun _ => Except.ok []
    cancelAt := fun _ => false
    execConfirm := false
    sendKeysConfirm := false
    pasteConfirm := false }

/-- The state after chat.go:152 sets `Status = "running"`. -/
def runningState : MState := { Status := "running".toList }

/-- Counterexample to C4 as stated: on a guideline-rejected reply (a reply
with no tags and no flags, outside watch mode) the orchestrator *does*
append the exchange to the chat history before recursing — the history has
grown by two messages, not zero. -/
theorem guideline_failure_appends_counterexample :
    ((ProcessUserMessage (oracleEnv (Except.ok "no tags".toList)) 1 runningState
        "hi".toList).1.Messages).length = 2 := by
  decide

def noTagsEnv : Env := oracleEnv (Except.ok "no tags".toList)

def noTagsSt (cm : ChatMessage) : MState :=
  { runningState with
    tick := 4,
    Messages := [cm, { Content := "no tags".toList, FromUser := false }] }

/-- Witness for the amended C4 at a concrete guideline-rejected reply. -/
theorem guideline_failure_appends_and_recurses_witness :
    ∃ currentMessage sending,
      ProcessUserMessage noTagsEnv 1 runningState "hi".toList =
        ((ProcessUserMessage noTagsEnv 0 (noTagsSt currentMessage) guidelineMsgAtLeastOne).1,
         (ProcessUserMessage noTagsEnv 0 (noTagsSt currentMessage) guidelineMsgAtLeastOne).2.1,
         [Event.aiCalled sending,
          Event.appended currentMessage { Content := "no tags".toList, FromUser := false },
          Event.recursed guidelineMsgAtLeastOne] ++
           (ProcessUserMessage noTagsEnv 0 (noTagsSt currentMessage)
              guidelineMsgAtLeastOne).2.2) :=
  guideline_failure_appends_and_recurses noTagsEnv 0 runningState "hi".toList
    "no tags".toList guidelineMsgAtLeastOne (by decide) rfl rfl rfl rfl (by decide)

/-- Witness for C7: a failing chat call aborts the turn with cleared status,
no history change and only the chat-call event. -/
theorem chat_failure_aborts_witness :
    ∃ sending,
      ProcessUserMessage (oracleEnv (Except.error "boom".toList)) 1 runningState
        "hi".toList =
      ({ runningState with Status := [], tick := 3 }, false, [Event.aiCalled sending]) :=
  chat_failure_aborts (oracleEnv (Except.error "boom".toList)) 0 runningState
    "hi".toList "boom".toList (by decide) rfl rfl rfl

/-- Witness for C9: a `RequestAccomplished` reply makes the turn return
`true` with the status cleared. -/
theorem accomplished_implies_idle_witness :
    (ProcessUserMessage (oracleEnv (Except.ok flagRequestAccomplished)) 1 runningState
        "do it".toList).1.Status = [] :=
  accomplished_implies_idle (oracleEnv (Except.ok flagRequestAccomplished)) 1 runningState
    "do it".toList (by decide)

end Tmuxai
